import Mathlib

/-!
Shallow embedding of the option-probability engine: the OCC identifier codec,
the quote store, the surface-snapshot builder, the slope/ratio probability
estimators, the put-call-parity forward estimator, the confidence scorer and
the Black-Scholes implied-volatility inverter, together with theorems about
the specified behaviour of each component.

Numeric modelling: machine floats are modelled as exact rationals (`ℚ`) in the
purely arithmetical components, as real numbers (`ℝ`) where transcendental
functions (`exp`, `log`, `sqrt`, `erf`) occur, and as `PFloat` (rationals
extended with `nan` and signed infinities, with IEEE-754 comparison semantics)
at the quote-validation boundary, where the behaviour on `nan` is observable.
-/

/-- Character test for the regex class `[0-9]` (`\d`). -/
def isDig (c : Char) : Bool := decide (48 ≤ c.toNat) && decide (c.toNat ≤ 57)

/-- Character test for the regex class `[A-Z]`. -/
def isUpperAZ (c : Char) : Bool := decide (65 ≤ c.toNat) && decide (c.toNat ≤ 90)

/-- Numeric value of a decimal digit character. -/
def digVal (c : Char) : ℕ := c.toNat - 48

/-- Value of a string of decimal digit characters, most significant first. -/
def fromDigits (l : List Char) : ℕ := l.foldl (fun n c => 10 * n + digVal c) 0

/-- Expiry date carried by an option identifier.  The time of day is not
represented: every expiry datetime is fixed at 21:00:00 UTC (4 PM ET market
close), so the calendar date determines the instant. -/
structure ExpiryDate where
  year : ℕ
  month : ℕ
  day : ℕ
deriving DecidableEq

/-- Gregorian leap-year test, as implemented by the standard date library. -/
def is_leap_year (y : ℕ) : Bool :=
  decide (y % 4 = 0) && (decide (y % 100 ≠ 0) || decide (y % 400 = 0))

/-- Number of days in a month of a given year. -/
def days_in_month (y m : ℕ) : ℕ :=
  if m = 2 then (if is_leap_year y then 29 else 28)
  else if m = 4 ∨ m = 6 ∨ m = 9 ∨ m = 11 then 30
  else 31

/-- Validity test a `strptime`-style `%Y-%m-%d` date parser applies. -/
def is_valid_date (y m d : ℕ) : Bool :=
  decide (1 ≤ m) && decide (m ≤ 12) && decide (1 ≤ d) && decide (d ≤ days_in_month y m)

/-- Expiry-datetime construction from a calendar date.  The underlying
`datetime.strptime` call raises `ValueError` on an invalid calendar date
(month outside 1..12 or day outside the month); the raised exception is
modelled as `Except.error`. -/
def make_expiry_datetime (y m d : ℕ) : Except Unit ExpiryDate :=
  if is_valid_date y m d then .ok ⟨y, m, d⟩ else .error ()

/-- Capture groups of the OCC identifier pattern
`^O:([A-Z]+)(\d{2})(\d{2})(\d{2})([CP])(\d{8})$`. -/
structure OCCMatch where
  ticker : String
  yy : ℕ
  mm : ℕ
  dd : ℕ
  opt_ty : Char
  strikeN : ℕ
deriving DecidableEq

/-- Anchored match of the OCC identifier pattern against a character list.
The ticker group is the maximal leading run of `[A-Z]`; because the following
group is `\d{2}` and the character classes are disjoint, this maximal-munch
reading is the unique way the regex can match. -/
def occ_match (l : List Char) : Option OCCMatch :=
  match l with
  | o :: c :: rest =>
    if o = 'O' ∧ c = ':' then
      match rest.takeWhile isUpperAZ, rest.dropWhile isUpperAZ with
      | [], _ => none
      | a :: as, [y1, y2, m1, m2, d1, d2, t, s1, s2, s3, s4, s5, s6, s7, s8] =>
        if (isDig y1 && isDig y2 && isDig m1 && isDig m2 && isDig d1 && isDig d2 &&
            isDig s1 && isDig s2 && isDig s3 && isDig s4 && isDig s5 && isDig s6 &&
            isDig s7 && isDig s8 && (t == 'C' || t == 'P')) then
          some ⟨String.mk (a :: as), fromDigits [y1, y2], fromDigits [m1, m2],
                fromDigits [d1, d2], t, fromDigits [s1, s2, s3, s4, s5, s6, s7, s8]⟩
        else none
      | _ :: _, _ => none
    else none
  | _ => none

/-- Recognized ticker set. -/
def SYMBOLS : List String :=
  ["AAPL", "MSFT", "GOOGL", "AMZN", "TSLA", "META", "NVDA", "NFLX", "PLTR", "OPEN"]

/-- Membership test of a string in the recognized ticker set. -/
def is_symbol (s : String) : Bool := SYMBOLS.contains s

/-- Parse an OCC option symbol into `(symbol, expiration_date, option_type,
strike)`.  Pattern mismatch and unrecognized tickers yield `.ok none`
(the documented `None` return); an invalid calendar date propagates the
`ValueError` raised by `datetime.strptime`, modelled as `.error`. -/
def parse_occ_symbol (s : String) :
    Except Unit (Option (String × ExpiryDate × String × ℚ)) :=
  match occ_match s.data with
  | none => .ok none
  | some m =>
    if is_symbol m.ticker then
      match make_expiry_datetime (2000 + m.yy) m.mm m.dd with
      | .error e => .error e
      | .ok d =>
        let option_type := if m.opt_ty = 'C' then "call" else "put"
        .ok (some (m.ticker, d, option_type, (m.strikeN : ℚ) / 1000))
    else .ok none

/-- IEEE-754-style scalar: a finite value (exact rational), a signed
infinity, or `nan`.  Comparisons involving `nan` are false, as in the host
language's float comparisons. -/
inductive PFloat where
  | num (q : ℚ)
  | inf
  | ninf
  | nan
deriving DecidableEq

/-- Strict less-than with IEEE semantics (`nan` incomparable). -/
def PFloat.blt : PFloat → PFloat → Bool
  | .num a, .num b => decide (a < b)
  | .num _, .inf => true
  | .ninf, .num _ => true
  | .ninf, .inf => true
  | _, _ => false

/-- Non-strict less-or-equal with IEEE semantics (`nan` incomparable). -/
def PFloat.ble : PFloat → PFloat → Bool
  | .num a, .num b => decide (a ≤ b)
  | .num _, .inf => true
  | .ninf, .num _ => true
  | .ninf, .inf => true
  | .inf, .inf => true
  | .ninf, .ninf => true
  | _, _ => false

/-- IEEE addition on the extended scalars. -/
def PFloat.add : PFloat → PFloat → PFloat
  | .num a, .num b => .num (a + b)
  | .num _, .inf => .inf
  | .num _, .ninf => .ninf
  | .inf, .num _ => .inf
  | .ninf, .num _ => .ninf
  | .inf, .inf => .inf
  | .ninf, .ninf => .ninf
  | _, _ => .nan

/-- IEEE negation. -/
def PFloat.neg : PFloat → PFloat
  | .num a => .num (-a)
  | .inf => .ninf
  | .ninf => .inf
  | .nan => .nan

/-- IEEE subtraction. -/
def PFloat.sub (a b : PFloat) : PFloat := a.add b.neg

/-- IEEE halving (division by the constant 2). -/
def PFloat.half : PFloat → PFloat
  | .num a => .num (a / 2)
  | .inf => .inf
  | .ninf => .ninf
  | .nan => .nan

namespace QuoteStore

/-- Real-time quote event from the market-data transport. -/
structure OptionQuoteEvent where
  occ_symbol : String
  bid : PFloat
  ask : PFloat
  ts : ℤ
deriving DecidableEq

/-- Latest merged state of one option contract, as stored by the store. -/
structure OptionState where
  occ_symbol : String
  symbol : String
  strike_price : ℚ
  expiration_date : ExpiryDate
  option_type : String
  bid : PFloat
  ask : PFloat
  mid : PFloat
  spread : PFloat
  last_updated : ℤ
deriving DecidableEq

/-- Store contents: the mapping from OCC symbol to latest state, modelled as
an association list with unique keys. -/
def Store := List (String × OptionState)

/-- Upsert by key into the association-list model of the store's dictionary. -/
def upsert (states : Store) (key : String) (s : OptionState) : Store :=
  (key, s) :: List.filter (fun p => !(p.1 == key)) states

/-- Apply a raw quote event: reject (return `none`) on a negative or crossed
quote or an unparsable symbol, otherwise build the merged state and upsert it.
An exception escaping the symbol parser (invalid calendar date) propagates,
modelled as `.error`.  Returns the new state paired with the updated store. -/
def apply_quote (states : Store) (quote : OptionQuoteEvent) :
    Except Unit (Option OptionState × Store) :=
  if quote.bid.blt (.num 0) || quote.ask.blt (.num 0) || quote.ask.blt quote.bid then
    .ok (none, states)
  else
    match parse_occ_symbol quote.occ_symbol with
    | .error e => .error e
    | .ok none => .ok (none, states)
    | .ok (some (symbol, expiration_date, option_type, strike)) =>
      let mid := (quote.bid.add quote.ask).half
      let spread := quote.ask.sub quote.bid
      let state : OptionState :=
        ⟨quote.occ_symbol, symbol, strike, expiration_date, option_type,
         quote.bid, quote.ask, mid, spread, quote.ts⟩
      .ok (some state, upsert states quote.occ_symbol state)

end QuoteStore

/-- Latest state of an option contract as consumed by the snapshot builder
and the probability models.  Prices are modelled as exact rationals: these
components perform only field arithmetic and comparisons. -/
structure OptionState where
  occ_symbol : String
  symbol : String
  strike_price : ℚ
  expiration_date : ExpiryDate
  option_type : String
  bid : ℚ
  ask : ℚ
  mid : ℚ
  spread : ℚ
  last_updated : ℤ
deriving DecidableEq

/-- One option quote at a single strike inside a surface snapshot. -/
structure OptionPoint where
  strike : ℚ
  option_type : String
  bid : ℚ
  ask : ℚ
  mid : ℚ
  spread : ℚ
deriving DecidableEq

/-- Immutable snapshot of an option surface for one symbol and expiry. -/
structure OptionSurfaceSnapshot where
  symbol : String
  expiration_date : ExpiryDate
  calls : List OptionPoint
  puts : List OptionPoint
deriving DecidableEq

/-- Strikes of the call points, in surface order. -/
def OptionSurfaceSnapshot.call_strikes (s : OptionSurfaceSnapshot) : List ℚ :=
  s.calls.map (·.strike)

/-- Strikes of the put points, in surface order. -/
def OptionSurfaceSnapshot.put_strikes (s : OptionSurfaceSnapshot) : List ℚ :=
  s.puts.map (·.strike)

/-- First call point at exactly the given strike, if any. -/
def OptionSurfaceSnapshot.get_call (s : OptionSurfaceSnapshot) (strike : ℚ) :
    Option OptionPoint :=
  s.calls.find? (fun p => decide (p.strike = strike))

/-- First put point at exactly the given strike, if any. -/
def OptionSurfaceSnapshot.get_put (s : OptionSurfaceSnapshot) (strike : ℚ) :
    Option OptionPoint :=
  s.puts.find? (fun p => decide (p.strike = strike))

/-- Keep the states matching the target symbol and expiry and, when a
`max_spread` filter is given, whose spread does not exceed it. -/
def surface_filter (states : List OptionState) (symbol : String)
    (expiration_date : ExpiryDate) (max_spread : Option ℚ) : List OptionState :=
  states.filter (fun s =>
    decide (s.symbol = symbol) && decide (s.expiration_date = expiration_date) &&
      (match max_spread with
       | some ms => decide (s.spread ≤ ms)
       | none => true))

/-- Build an option surface snapshot for one symbol and expiry: filter the
states, project them to points, partition into calls and puts by option type,
and sort each side by ascending strike. -/
def build_surface_snapshot (states : List OptionState) (symbol : String)
    (expiration_date : ExpiryDate) (max_spread : Option ℚ) : OptionSurfaceSnapshot :=
  let pts := (surface_filter states symbol expiration_date max_spread).map
    (fun s => OptionPoint.mk s.strike_price s.option_type s.bid s.ask s.mid s.spread)
  let calls := pts.filter (fun p => decide (p.option_type = "call"))
  let puts := pts.filter (fun p => !(decide (p.option_type = "call")))
  ⟨symbol, expiration_date,
   calls.mergeSort (fun a b => decide (a.strike ≤ b.strike)),
   puts.mergeSort (fun a b => decide (a.strike ≤ b.strike))⟩

/-- Probability estimate for a single strike. -/
structure StrikeProbability where
  strike_price : ℚ
  prob_above : ℚ
deriving DecidableEq

/-- Ratio ("simple") estimator: `P(S_T > K) ≈ c.mid / (c.mid + p.mid)` at
exactly strike `K`, clamped to `[0, 1]`. -/
def estimate_probability_simple (snapshot : OptionSurfaceSnapshot) (strike : ℚ)
    (max_spread : Option ℚ) : Option StrikeProbability :=
  match snapshot.get_call strike, snapshot.get_put strike with
  | some call, some put =>
    if (match max_spread with
        | some ms => decide (ms < call.spread) || decide (ms < put.spread)
        | none => false) then none
    else
      let c := call.mid
      let p := put.mid
      if c ≤ 0 ∨ p ≤ 0 then none
      else
        let denom := c + p
        if denom ≤ 0 then none
        else some ⟨strike, max 0 (min 1 (c / denom))⟩
  | _, _ => none

/-- Index bookkeeping of the host language's `min(range(n), key=...)`: keep
the current index unless a later one is strictly smaller under the key. -/
def argmin_go (f : ℕ → ℚ) : List ℕ → ℕ → ℕ
  | [], best => best
  | j :: js, best => argmin_go f js (if f j < f best then j else best)

/-- Index of the first element of `ks` at minimal absolute distance from `K`,
or `none` on an empty list. -/
def argmin_abs (ks : List ℚ) (K : ℚ) : Option ℕ :=
  match ks with
  | [] => none
  | _ :: _ =>
    some (argmin_go (fun j => |ks.getD j 0 - K|) ((List.range ks.length).drop 1) 0)

/-- Slope estimator: finite-difference slope of call mid prices around the
strike nearest `K` over `window` strikes each side, converted to a
probability by `clamp(-slope / discount, 0, 1)`. -/
def estimate_probability_slope (snapshot : OptionSurfaceSnapshot) (strike : ℚ)
    (window : ℕ) (discount : ℚ) (max_spread : Option ℚ) : Option StrikeProbability :=
  let calls := snapshot.calls
  if calls.length < 2 * window + 1 then none
  else
    let strikes := calls.map (·.strike)
    let mids := calls.map (·.mid)
    let spreads := calls.map (·.spread)
    match argmin_abs strikes strike with
    | none => none
    | some i =>
      if i < window ∨ strikes.length ≤ i + window then none
      else
        let left := i - window
        let right := i + window
        if (match max_spread with
            | some ms =>
              (List.range (2 * window + 1)).any (fun t => decide (ms < spreads.getD (left + t) 0))
            | none => false) then none
        else
          let k_left := strikes.getD left 0
          let k_right := strikes.getD right 0
          let c_left := mids.getD left 0
          let c_right := mids.getD right 0
          if k_right = k_left then none
          else
            let slope := (c_right - c_left) / (k_right - k_left)
            some ⟨strike, max 0 (min 1 (-slope / discount))⟩

/-- Robust forward estimate from put-call parity. -/
structure ForwardEstimate where
  forward : ℚ
  n_used : ℕ
  median : ℚ
  min_f : ℚ
  max_f : ℚ
deriving DecidableEq

/-- Common strikes where both a call and a put quote exist: the sorted
deduplicated intersection of the call and put strike lists. -/
def common_strikes (snapshot : OptionSurfaceSnapshot) : List ℚ :=
  ((snapshot.call_strikes.filter (fun k => snapshot.put_strikes.contains k)).dedup).mergeSort
    (fun a b => decide (a ≤ b))

/-- Per-strike parity candidate: the loop body of the forward estimator.
Yields `(F_i, w_i)` with `F_i = K + (c.mid - p.mid) / D` and liquidity weight
`w_i = 1 / max(c.spread + p.spread, 10⁻⁹)` when the quotes at the strike pass
the sanity filters, `none` otherwise. -/
def parity_candidate (snapshot : OptionSurfaceSnapshot) (discount min_mid : ℚ)
    (max_spread : Option ℚ) (k : ℚ) : Option (ℚ × ℚ) :=
  match snapshot.get_call k, snapshot.get_put k with
  | some call, some put =>
    if call.mid ≤ min_mid ∨ put.mid ≤ min_mid then none
    else if call.bid < 0 ∨ call.ask < 0 ∨ call.bid > call.ask then none
    else if put.bid < 0 ∨ put.ask < 0 ∨ put.bid > put.ask then none
    else if (match max_spread with
             | some ms => decide (ms < call.spread) || decide (ms < put.spread)
             | none => false) then none
    else if k + (call.mid - put.mid) / discount ≤ 0 then none
    else some (k + (call.mid - put.mid) / discount,
      1 / max (call.spread + put.spread) (1 / 1000000000))
  | _, _ => none

/-- All surviving parity candidates across the common strikes. -/
def parity_candidates (snapshot : OptionSurfaceSnapshot) (discount min_mid : ℚ)
    (max_spread : Option ℚ) : List (ℚ × ℚ) :=
  (common_strikes snapshot).filterMap (parity_candidate snapshot discount min_mid max_spread)

/-- Minimum of a list of rationals (the list is nonempty at every use). -/
def list_min : List ℚ → ℚ
  | [] => 0
  | x :: xs => xs.foldl min x

/-- Maximum of a list of rationals (the list is nonempty at every use). -/
def list_max : List ℚ → ℚ
  | [] => 0
  | x :: xs => xs.foldl max x

/-- Median of the candidate forwards: middle element of the sorted forwards
for an odd count, else the mean of the two middle elements. -/
def forward_median (candidates : List (ℚ × ℚ)) : ℚ :=
  if ((candidates.map Prod.fst).mergeSort (fun a b => decide (a ≤ b))).length % 2 = 1 then
    ((candidates.map Prod.fst).mergeSort (fun a b => decide (a ≤ b))).getD
      (((candidates.map Prod.fst).mergeSort (fun a b => decide (a ≤ b))).length / 2) 0
  else
    (((candidates.map Prod.fst).mergeSort (fun a b => decide (a ≤ b))).getD
        (((candidates.map Prod.fst).mergeSort (fun a b => decide (a ≤ b))).length / 2 - 1) 0 +
      ((candidates.map Prod.fst).mergeSort (fun a b => decide (a ≤ b))).getD
        (((candidates.map Prod.fst).mergeSort (fun a b => decide (a ≤ b))).length / 2) 0) / 2

/-- Candidates surviving the trim to `median·(1 ± trim_pct)`, falling back to
the untrimmed set when fewer than 3 survive. -/
def forward_trimmed (candidates : List (ℚ × ℚ)) (trim_pct : ℚ) : List (ℚ × ℚ) :=
  if (candidates.filter (fun fw =>
      decide (forward_median candidates * (1 - trim_pct) ≤ fw.1) &&
        decide (fw.1 ≤ forward_median candidates * (1 + trim_pct)))).length < 3 then
    candidates
  else
    candidates.filter (fun fw =>
      decide (forward_median candidates * (1 - trim_pct) ≤ fw.1) &&
        decide (fw.1 ≤ forward_median candidates * (1 + trim_pct)))

/-- Forward price estimator for one underlying and expiry via put-call
parity: median of the per-strike candidates, trim around the median (with
fallback to the untrimmed set), then a liquidity-weighted mean.  A
non-positive (or, unrepresentably here, non-finite) discount raises
`ValueError`, modelled as `.error`; insufficient data yields `.ok none`. -/
def estimate_forward_put_call_parity (snapshot : OptionSurfaceSnapshot)
    (discount : ℚ) (max_spread : Option ℚ) (trim_pct min_mid : ℚ) :
    Except Unit (Option ForwardEstimate) :=
  if discount ≤ 0 then .error ()
  else if common_strikes snapshot = [] then .ok none
  else if (parity_candidates snapshot discount min_mid max_spread).length < 3 then .ok none
  else if ((forward_trimmed (parity_candidates snapshot discount min_mid max_spread)
      trim_pct).map Prod.snd).sum ≤ 0 then .ok none
  else
    .ok (some
      ⟨((forward_trimmed (parity_candidates snapshot discount min_mid max_spread)
            trim_pct).map (fun fw => fw.1 * fw.2)).sum /
          ((forward_trimmed (parity_candidates snapshot discount min_mid max_spread)
            trim_pct).map Prod.snd).sum,
        (forward_trimmed (parity_candidates snapshot discount min_mid max_spread)
          trim_pct).length,
        forward_median (parity_candidates snapshot discount min_mid max_spread),
        list_min ((forward_trimmed (parity_candidates snapshot discount min_mid max_spread)
          trim_pct).map Prod.fst),
        list_max ((forward_trimmed (parity_candidates snapshot discount min_mid max_spread)
          trim_pct).map Prod.fst)⟩)

/-- Diagnostics of the confidence score; the agreement and spacing sub-scores
involve `exp`, so all four are carried as reals. -/
structure ConfidenceDiagnostics where
  agreement : ℝ
  liquidity : ℝ
  monotonicity : ℝ
  spacing : ℝ

/-- Agreement sub-score: zero when either estimator is absent, otherwise
`exp(-5 |p_simple - p_slope|)`. -/
noncomputable def agreement_score (prob_simple prob_slope : Option StrikeProbability) : ℝ :=
  match prob_simple, prob_slope with
  | some ps, some pl => Real.exp (-5 * |(ps.prob_above : ℝ) - (pl.prob_above : ℝ)|)
  | _, _ => 0

/-- Liquidity sub-score: zero unless both a call and a put quote exist at the
strike; otherwise `1 - r / max_relative_spread` for the worst relative spread
`r`, collapsing to zero once `r` reaches `max_relative_spread`. -/
def liquidity_score (snapshot : OptionSurfaceSnapshot) (strike : ℚ)
    (max_relative_spread : ℚ) : ℚ :=
  match snapshot.get_call strike, snapshot.get_put strike with
  | some call, some put =>
    if max_relative_spread ≤
        max (call.spread / max call.mid (1 / 1000000))
          (put.spread / max put.mid (1 / 1000000)) then 0
    else 1 -
      max (call.spread / max call.mid (1 / 1000000))
        (put.spread / max put.mid (1 / 1000000)) / max_relative_spread
  | _, _ => 0

/-- Monotonicity sub-score: one when the call mids at the nearest-strike index
and its existing neighbours are non-increasing, else zero; zero when the calls
list is empty. -/
def monotonicity_score (snapshot : OptionSurfaceSnapshot) (strike : ℚ) : ℚ :=
  match argmin_abs (snapshot.calls.map (·.strike)) strike with
  | none => 0
  | some i =>
    if (0 < i ∧ (snapshot.calls.map (·.mid)).getD (i - 1) 0 <
          (snapshot.calls.map (·.mid)).getD i 0) ∨
       (i < (snapshot.calls.map (·.mid)).length - 1 ∧
          (snapshot.calls.map (·.mid)).getD i 0 <
            (snapshot.calls.map (·.mid)).getD (i + 1) 0) then 0
    else 1

/-- Spacing sub-score: zero at either edge of the chain, otherwise
`exp(-0.1 * max(dk_left, dk_right))` for the strike gaps around the
nearest-strike index. -/
noncomputable def spacing_score (snapshot : OptionSurfaceSnapshot) (strike : ℚ) : ℝ :=
  match argmin_abs (snapshot.calls.map (·.strike)) strike with
  | none => 0
  | some i =>
    if i = 0 ∨ (snapshot.calls.map (·.strike)).length - 1 ≤ i then 0
    else
      Real.exp (-0.1 *
        (max |(snapshot.calls.map (·.strike)).getD i 0 -
              (snapshot.calls.map (·.strike)).getD (i - 1) 0|
           |(snapshot.calls.map (·.strike)).getD (i + 1) 0 -
              (snapshot.calls.map (·.strike)).getD i 0| : ℚ))

/-- Confidence score for a strike-level probability estimate: the clamped
weighted sum `0.40·agreement + 0.30·liquidity + 0.20·monotonicity +
0.10·spacing`, returned with the four sub-scores. -/
noncomputable def compute_confidence (snapshot : OptionSurfaceSnapshot) (strike : ℚ)
    (prob_simple prob_slope : Option StrikeProbability) (max_relative_spread : ℚ) :
    ℝ × ConfidenceDiagnostics :=
  let agreement : ℝ := agreement_score prob_simple prob_slope
  let liquidity : ℚ := liquidity_score snapshot strike max_relative_spread
  let monotonicity : ℚ := monotonicity_score snapshot strike
  let spacing : ℝ := spacing_score snapshot strike
  let confidence : ℝ :=
    0.40 * agreement + 0.30 * (liquidity : ℝ) + 0.20 * (monotonicity : ℝ) + 0.10 * spacing
  (max 0 (min 1 confidence),
   ⟨agreement, (liquidity : ℝ), (monotonicity : ℝ), spacing⟩)

/-- Gauss error function, `erf x = (2/√π) ∫_0^x exp(-t²) dt`. -/
noncomputable def erf (x : ℝ) : ℝ :=
  2 / Real.sqrt Real.pi * ∫ t in (0:ℝ)..x, Real.exp (-(t ^ 2))

/-- Standard normal CDF via the error function. -/
noncomputable def norm_cdf (x : ℝ) : ℝ := 0.5 * (1 + erf (x / Real.sqrt 2))

/-- Side of an option contract. -/
inductive OptionType where
  | call
  | put
deriving DecidableEq

/-- Black-Scholes price on forwards (European).  The source returns `nan` on
a non-positive input or when `sigma * sqrt T` is non-positive; `nan` has no
real counterpart, so those branches return an unused junk value (they are
unreachable from the inverter's call sites, whose own guards are stricter). -/
noncomputable def bs_price_forward (option_type : OptionType) (F K T sigma discount : ℝ) :
    ℝ :=
  if F ≤ 0 ∨ K ≤ 0 ∨ T ≤ 0 ∨ sigma ≤ 0 ∨ discount ≤ 0 then 0
  else
    let vol_sqrt := sigma * Real.sqrt T
    if vol_sqrt ≤ 0 then 0
    else
      let d1 := (Real.log (F / K) + 0.5 * sigma * sigma * T) / vol_sqrt
      let d2 := d1 - vol_sqrt
      match option_type with
      | .call => discount * (F * norm_cdf d1 - K * norm_cdf d2)
      | .put => discount * (K * norm_cdf (-d2) - F * norm_cdf (-d1))

/-- European no-arbitrage bounds `(lower, upper)` on the option price:
discounted intrinsic below, `D·F` (call) or `D·K` (put) above. -/
noncomputable def no_arb_bounds_forward (option_type : OptionType) (F K discount : ℝ) :
    ℝ × ℝ :=
  match option_type with
  | .call => (discount * max (F - K) 0, discount * F)
  | .put => (discount * max (K - F) 0, discount * K)

/-- Result of the implied-volatility inversion. -/
structure ImpliedVolResult where
  sigma : ℝ
  iterations : ℕ
  price_fit : ℝ

/-- Bracket-expansion loop of the inverter: multiply `hi` by 1.5 up to ten
times, stopping once `hi` exceeds 10 (without re-pricing) or the price at
`hi` reaches the target.  Returns the final `(hi, price_at_hi)` pair. -/
noncomputable def expand_hi (f : ℝ → ℝ) (price : ℝ) : ℕ → ℝ → ℝ → ℝ × ℝ
  | 0, hi, p_hi => (hi, p_hi)
  | n + 1, hi, p_hi =>
    let hi2 := hi * 1.5
    if 10 < hi2 then (hi2, p_hi)
    else
      let p_hi2 := f hi2
      if price ≤ p_hi2 then (hi2, p_hi2)
      else expand_hi f price n hi2 p_hi2

/-- Bisection loop of the inverter, with the remaining iteration budget as
fuel.  Mirrors the source: each pass prices the midpoint, returns on meeting
the tolerance, and otherwise halves the bracket; on exhausted fuel the last
midpoint and price are returned with the final iteration count. -/
noncomputable def bisect_loop (f : ℝ → ℝ) (price tol : ℝ) :
    ℕ → ℕ → ℝ → ℝ → ℝ → ℝ → ImpliedVolResult
  | 0, it, _, _, mid, p_mid => ⟨mid, it, p_mid⟩
  | fuel + 1, it, lo, hi, _, _ =>
    if |f (0.5 * (lo + hi)) - price| ≤ tol then
      ⟨0.5 * (lo + hi), it + 1, f (0.5 * (lo + hi))⟩
    else if f (0.5 * (lo + hi)) - price < 0 then
      bisect_loop f price tol fuel (it + 1) (0.5 * (lo + hi)) hi (0.5 * (lo + hi))
        (f (0.5 * (lo + hi)))
    else
      bisect_loop f price tol fuel (it + 1) lo (0.5 * (lo + hi)) (0.5 * (lo + hi))
        (f (0.5 * (lo + hi)))

/-- Implied-volatility inversion by bisection over the Black-Scholes forward
pricer.  Returns `none` on invalid inputs, a price outside the no-arbitrage
bounds (beyond the 10⁻¹⁰ slack) or a bracket failure; returns the
near-intrinsic result `(vol_low, 0, lb)` when the price is within 10⁻¹² of
the lower bound.  The source's `isfinite` rejections have no real-number
counterpart and are omitted. -/
noncomputable def implied_vol_bisect (option_type : OptionType)
    (price F K T discount vol_low vol_high tol : ℝ) (max_iter : ℕ) :
    Option ImpliedVolResult :=
  if price ≤ 0 ∨ F ≤ 0 ∨ K ≤ 0 ∨ T ≤ 0 ∨ discount ≤ 0 then none
  else
    let bounds := no_arb_bounds_forward option_type F K discount
    let lb := bounds.1
    let ub := bounds.2
    if price < lb - 1e-10 ∨ ub + 1e-10 < price then none
    else if |price - lb| ≤ 1e-12 then some ⟨vol_low, 0, lb⟩
    else
      let f := fun s => bs_price_forward option_type F K T s discount
      let p_lo := f vol_low
      let p_hi := f vol_high
      let hp := if p_hi < price then expand_hi f price 10 vol_high p_hi
                else (vol_high, p_hi)
      if price < p_lo ∨ hp.2 < price then none
      else some (bisect_loop f price tol max_iter 0 vol_low hp.1 0 0)

/-- Risk-neutral probability that the underlying finishes above `K`,
`N(d2)`.  The source returns `nan` on a non-positive input; as in
`bs_price_forward` that branch is modelled by an unused junk value. -/
noncomputable def bs_prob_above (F K T sigma : ℝ) : ℝ :=
  if F ≤ 0 ∨ K ≤ 0 ∨ T ≤ 0 ∨ sigma ≤ 0 then 0
  else norm_cdf ((Real.log (F / K) + 0.5 * sigma * sigma * T) / (sigma * Real.sqrt T))

/-- Raw SVI parameters. -/
structure SVIParams where
  a : ℝ
  b : ℝ
  rho : ℝ
  m : ℝ
  sig : ℝ

/-- SVI total variance `w(k) = a + b·(ρ·(k-m) + √((k-m)² + σ²))`. -/
noncomputable def svi_total_variance (k : ℝ) (p : SVIParams) : ℝ :=
  p.a + p.b * (p.rho * (k - p.m) + Real.sqrt ((k - p.m) ^ 2 + p.sig ^ 2))

/-- Outcome of a successful SVI fit. -/
structure SVIFitResult where
  params : SVIParams
  forward : ℝ
  n_points : ℕ

/-- Fitted SVI smile model; immutable after construction. -/
structure SVIModel where
  fit : SVIFitResult
  T : ℝ
  discount : ℝ

/-- Implied volatility of the SVI model at strike `K`:
`√(max(w(ln(K/F)), 10⁻¹²) / T)`. -/
noncomputable def SVIModel.implied_vol (mo : SVIModel) (K : ℝ) : ℝ :=
  let k := Real.log (K / mo.fit.forward)
  Real.sqrt (max (svi_total_variance k mo.fit.params) 1e-12 / mo.T)

/-- `prob_above` of the SVI model: `N(d2)` at the model's implied vol,
clamped to `[0, 1]`. -/
noncomputable def SVIModel.prob_above (mo : SVIModel) (K : ℝ) : ℝ :=
  max 0 (min 1 (bs_prob_above mo.fit.forward K mo.T (mo.implied_vol K)))

/-- Outcome of a successful spline fit. -/
structure SplineFitResult where
  forward : ℝ
  n_points : ℕ

/-- Fitted smoothing-spline smile model.  The fitted spline itself is an
opaque real function `spline_w`, evaluated on the total-variance axis; the
model clamps queries to the observed log-moneyness range `[k_min, k_max]`. -/
structure SplineModel where
  fit : SplineFitResult
  spline_w : ℝ → ℝ
  T : ℝ
  discount : ℝ
  k_min : ℝ
  k_max : ℝ

/-- Total variance of the spline model at strike `K`: the spline evaluated at
the range-clamped log-moneyness, floored at 10⁻¹². -/
noncomputable def SplineModel.total_variance (mo : SplineModel) (K : ℝ) : ℝ :=
  let k := Real.log (K / mo.fit.forward)
  let kc := min (max k mo.k_min) mo.k_max
  max (mo.spline_w kc) 1e-12

/-- Implied volatility of the spline model at strike `K`. -/
noncomputable def SplineModel.implied_vol (mo : SplineModel) (K : ℝ) : ℝ :=
  Real.sqrt (mo.total_variance K / mo.T)

/-- `prob_above` of the spline model: `N(d2)` at the model's implied vol,
clamped to `[0, 1]`. -/
noncomputable def SplineModel.prob_above (mo : SplineModel) (K : ℝ) : ℝ :=
  max 0 (min 1 (bs_prob_above mo.fit.forward K mo.T (mo.implied_vol K)))

/-- Ratio-model wrapper.  The source wrapper returns `nan` exactly when the
value-level estimator returns `None`; absence is modelled as `none`. -/
structure SimpleModel where
  snapshot : OptionSurfaceSnapshot
  max_spread : Option ℚ

/-- `prob_above` of the ratio-model wrapper. -/
def SimpleModel.prob_above (mo : SimpleModel) (K : ℚ) : Option ℚ :=
  (estimate_probability_simple mo.snapshot K mo.max_spread).map (·.prob_above)

/-- Slope-model wrapper.  The source wrapper returns `nan` exactly when the
value-level estimator returns `None`; absence is modelled as `none`. -/
structure SlopeModel where
  snapshot : OptionSurfaceSnapshot
  window : ℕ
  discount : ℚ
  max_spread : Option ℚ

/-- `prob_above` of the slope-model wrapper. -/
def SlopeModel.prob_above (mo : SlopeModel) (K : ℚ) : Option ℚ :=
  (estimate_probability_slope mo.snapshot K mo.window mo.discount mo.max_spread).map
    (·.prob_above)

/-! ### Helper lemmas on digit strings -/

/-- C1 (code bug): on the event `("O:NVDA260230C00140000", bid 1, ask 2)` —
whose identifier matches the OCC pattern but encodes the invalid calendar
date 2026-02-30 — `apply_quote` does not return `None`: the `ValueError`
raised inside `datetime.strptime` propagates out of the store. -/
theorem apply_quote_invalid_date_raises :
    QuoteStore.apply_quote [] ⟨"O:NVDA260230C00140000", .num 1, .num 2, 0⟩ =
      .error () := rfl

/-! ### Quote-validation bounds at the store boundary -/

theorem PFloat.blt_eq_false_iff {a b : PFloat} (ha : a ≠ .nan) (hb : b ≠ .nan) :
    a.blt b = false ↔ b.ble a = true := by
  cases a <;> cases b <;> simp_all [PFloat.blt, PFloat.ble, not_lt]

/-- C3 (amended): for every quote event whose bid and ask are not `nan`, an
accepted event satisfies `bid ≥ 0`, `ask ≥ 0` and `bid ≤ ask` under IEEE
comparison, and every such event violating one of the bounds is rejected
(the store returns `None` and is left unchanged).  Events carrying `nan`
prices are excluded: the store's comparisons are all false on `nan`, so such
events pass the garbage check (see the counterexample). -/
theorem apply_quote_bounds (states : QuoteStore.Store) (q : QuoteStore.OptionQuoteEvent)
    (hb : q.bid ≠ .nan) (ha : q.ask ≠ .nan) :
    (∀ st rest, QuoteStore.apply_quote states q = .ok (some st, rest) →
       PFloat.ble (.num 0) q.bid = true ∧ PFloat.ble (.num 0) q.ask = true ∧
         PFloat.ble q.bid q.ask = true)
    ∧ (¬(PFloat.ble (.num 0) q.bid = true ∧ PFloat.ble (.num 0) q.ask = true ∧
          PFloat.ble q.bid q.ask = true) →
        QuoteStore.apply_quote states q = .ok (none, states)) := by
  have hz : (PFloat.num 0) ≠ .nan := by simp
  constructor
  · intro st rest heq
    unfold QuoteStore.apply_quote at heq
    split at heq
    case isTrue => exact absurd heq (by simp)
    case isFalse hg =>
      simp only [Bool.not_eq_true, Bool.or_eq_false_iff] at hg
      obtain ⟨⟨h1, h2⟩, h3⟩ := hg
      exact ⟨(PFloat.blt_eq_false_iff hb hz).mp h1,
        (PFloat.blt_eq_false_iff ha hz).mp h2,
        (PFloat.blt_eq_false_iff ha hb).mp h3⟩
  · intro hviol
    have hg : (q.bid.blt (.num 0) || q.ask.blt (.num 0) || q.ask.blt q.bid) = true := by
      by_contra hg
      simp only [Bool.not_eq_true, Bool.or_eq_false_iff] at hg
      obtain ⟨⟨h1, h2⟩, h3⟩ := hg
      exact hviol ⟨(PFloat.blt_eq_false_iff hb hz).mp h1,
        (PFloat.blt_eq_false_iff ha hz).mp h2,
        (PFloat.blt_eq_false_iff ha hb).mp h3⟩
    unfold QuoteStore.apply_quote
    rw [if_pos hg]

/-- Witness for C3 at a concrete accepted quote. -/
theorem apply_quote_bounds_witness :
    PFloat.ble (.num 0) (.num 5) = true ∧ PFloat.ble (.num 0) (.num 6) = true ∧
      PFloat.ble (.num 5) (.num 6) = true :=
  (apply_quote_bounds [] ⟨"O:NVDA260117C00140000", .num 5, .num 6, 0⟩
    (by simp) (by simp)).1 _ _ rfl

/-- C3 counterexample: the event `("O:NVDA260117C00140000", bid nan, ask 1)`
is accepted by the store — every IEEE comparison against `nan` is false, so
the garbage check passes — yet `bid ≥ 0` does not hold for it. -/
theorem apply_quote_nan_accepted :
    (match QuoteStore.apply_quote [] ⟨"O:NVDA260117C00140000", .nan, .num 1, 0⟩ with
     | .ok (some _, _) => true
     | _ => false) = true
    ∧ PFloat.ble (.num 0) .nan = false :=
  ⟨rfl, rfl⟩

/-! ### Sortedness of surface snapshots -/

theorem mergeSort_pairwise_lt (l : List OptionPoint)
    (hne : l.Pairwise (fun a b => a.strike ≠ b.strike)) :
    (l.mergeSort (fun a b => decide (a.strike ≤ b.strike))).Pairwise
      (fun a b => a.strike < b.strike) := by
  have htrans : ∀ a b c : OptionPoint, decide (a.strike ≤ b.strike) = true →
      decide (b.strike ≤ c.strike) = true → decide (a.strike ≤ c.strike) = true := by
    intro a b c h1 h2
    simp only [decide_eq_true_eq] at h1 h2 ⊢
    exact le_trans h1 h2
  have htotal : ∀ a b : OptionPoint,
      (decide (a.strike ≤ b.strike) || decide (b.strike ≤ a.strike)) = true := by
    intro a b
    simp [le_total]
  have hsorted := List.sorted_mergeSort htrans htotal l
  have hperm := List.mergeSort_perm l (fun a b => decide (a.strike ≤ b.strike))
  have hne2 : (l.mergeSort (fun a b => decide (a.strike ≤ b.strike))).Pairwise
      (fun a b => a.strike ≠ b.strike) :=
    (hperm.pairwise_iff (fun h => h.symm)).mpr hne
  refine (hsorted.and hne2).imp ?_
  intro a b h
  exact lt_of_le_of_ne (by simpa using h.1) h.2

/-- C4 (amended): for every list of option states, target symbol, target
expiry and optional spread filter, the calls and puts of the built surface are
strictly increasing in strike, provided no two of the states that survive the
symbol/expiry/spread filter agree both on which partition they fall into
(call versus non-call side) and on their strike.  States for other symbols or
expiries are unconstrained: the filter discards them before the surface is
assembled.  Without that proviso the sequences are merely sorted: a
duplicated (strike, side) pair surviving the filter reaches the surface (see
the counterexample). -/
theorem build_surface_snapshot_strict_sorted (states : List OptionState) (symbol : String)
    (e : ExpiryDate) (ms : Option ℚ)
    (hdist : (surface_filter states symbol e ms).Pairwise (fun a b =>
      decide (a.option_type = "call") = decide (b.option_type = "call") →
        a.strike_price ≠ b.strike_price)) :
    (build_surface_snapshot states symbol e ms).calls.Pairwise
      (fun a b => a.strike < b.strike) ∧
    (build_surface_snapshot states symbol e ms).puts.Pairwise
      (fun a b => a.strike < b.strike) := by
  have hfiltered : (surface_filter states symbol e ms).Pairwise (fun a b =>
      decide (a.option_type = "call") = decide (b.option_type = "call") →
        a.strike_price ≠ b.strike_price) := hdist
  have hpts : ((surface_filter states symbol e ms).map
      (fun s => OptionPoint.mk s.strike_price s.option_type s.bid s.ask s.mid s.spread)).Pairwise
      (fun a b => decide (a.option_type = "call") = decide (b.option_type = "call") →
        a.strike ≠ b.strike) := by
    rw [List.pairwise_map]
    exact hfiltered
  constructor
  · refine mergeSort_pairwise_lt _ ?_
    have hsub : (((surface_filter states symbol e ms).map
        (fun s => OptionPoint.mk s.strike_price s.option_type s.bid s.ask s.mid s.spread)).filter
        (fun p => decide (p.option_type = "call"))).Pairwise
        (fun a b => decide (a.option_type = "call") = decide (b.option_type = "call") →
          a.strike ≠ b.strike) :=
      hpts.sublist (List.filter_sublist _)
    refine hsub.imp_of_mem ?_
    intro a b hma hmb hr
    have hca := (List.mem_filter.mp hma).2
    have hcb := (List.mem_filter.mp hmb).2
    exact hr (hca.trans hcb.symm)
  · refine mergeSort_pairwise_lt _ ?_
    have hsub : (((surface_filter states symbol e ms).map
        (fun s => OptionPoint.mk s.strike_price s.option_type s.bid s.ask s.mid s.spread)).filter
        (fun p => !(decide (p.option_type = "call")))).Pairwise
        (fun a b => decide (a.option_type = "call") = decide (b.option_type = "call") →
          a.strike ≠ b.strike) :=
      hpts.sublist (List.filter_sublist _)
    refine hsub.imp_of_mem ?_
    intro a b hma hmb hr
    have hca := (List.mem_filter.mp hma).2
    have hcb := (List.mem_filter.mp hmb).2
    simp only [Bool.not_eq_true'] at hca hcb
    exact hr (hca.trans hcb.symm)

/-- Witness for C4 on a three-state input: two calls with distinct strikes at
the target expiry, plus a call repeating strike 90 at a later expiry — the
shape `get_by_symbol` produces — which the filter discards. -/
theorem build_surface_snapshot_strict_sorted_witness :
    (build_surface_snapshot
      [⟨"A", "NVDA", 90, ⟨2026, 1, 17⟩, "call", 1, 3, 2, 2, 0⟩,
       ⟨"B", "NVDA", 100, ⟨2026, 1, 17⟩, "call", 1, 3, 2, 2, 0⟩,
       ⟨"C", "NVDA", 90, ⟨2026, 2, 20⟩, "call", 1, 3, 2, 2, 0⟩]
      "NVDA" ⟨2026, 1, 17⟩ none).calls.Pairwise (fun a b => a.strike < b.strike) ∧
    (build_surface_snapshot
      [⟨"A", "NVDA", 90, ⟨2026, 1, 17⟩, "call", 1, 3, 2, 2, 0⟩,
       ⟨"B", "NVDA", 100, ⟨2026, 1, 17⟩, "call", 1, 3, 2, 2, 0⟩,
       ⟨"C", "NVDA", 90, ⟨2026, 2, 20⟩, "call", 1, 3, 2, 2, 0⟩]
      "NVDA" ⟨2026, 1, 17⟩ none).puts.Pairwise (fun a b => a.strike < b.strike) :=
  build_surface_snapshot_strict_sorted _ _ _ _ (by decide)

/-- C4 counterexample: two distinct states sharing side and strike survive to
the surface, whose calls sequence then repeats the strike 100 and is not
strictly increasing. -/
theorem build_surface_snapshot_dup_not_strict :
    ¬ (build_surface_snapshot
        [⟨"A", "NVDA", 100, ⟨2026, 1, 17⟩, "call", 1, 3, 2, 2, 0⟩,
         ⟨"B", "NVDA", 100, ⟨2026, 1, 17⟩, "call", 1, 3, 2, 2, 0⟩]
        "NVDA" ⟨2026, 1, 17⟩ none).calls.Pairwise (fun a b => a.strike < b.strike) := by
  intro h
  have hcalls : (build_surface_snapshot
      [⟨"A", "NVDA", 100, ⟨2026, 1, 17⟩, "call", 1, 3, 2, 2, 0⟩,
       ⟨"B", "NVDA", 100, ⟨2026, 1, 17⟩, "call", 1, 3, 2, 2, 0⟩]
      "NVDA" ⟨2026, 1, 17⟩ none).calls =
      [⟨100, "call", 1, 3, 2, 2⟩, ⟨100, "call", 1, 3, 2, 2⟩] := by
    norm_num [build_surface_snapshot, surface_filter, List.mergeSort, List.merge]
  rw [hcalls] at h
  exact absurd ((List.pairwise_cons.mp h).1 _ (by simp)) (lt_irrefl _)

/-! ### Concrete slope-model evaluation -/

/-- C9: on the surface with calls at strikes (90, 100, 110) and mids
(9, 5, 1), the slope estimator with window 1 queried at K = 100 returns
`prob_above = 2/5 = 0.4` at discount 1, and `8/19 = 0.4/0.95` at
discount 0.95 = 19/20. -/
theorem slope_concrete_values :
    ((estimate_probability_slope
        ⟨"NVDA", ⟨2026, 1, 17⟩,
         [⟨90, "call", 9, 9, 9, 0⟩, ⟨100, "call", 5, 5, 5, 0⟩, ⟨110, "call", 1, 1, 1, 0⟩],
         []⟩ 100 1 1 none).map (·.prob_above) = some (2 / 5))
    ∧ ((estimate_probability_slope
        ⟨"NVDA", ⟨2026, 1, 17⟩,
         [⟨90, "call", 9, 9, 9, 0⟩, ⟨100, "call", 5, 5, 5, 0⟩, ⟨110, "call", 1, 1, 1, 0⟩],
         []⟩ 100 1 (19 / 20) none).map (·.prob_above) = some (8 / 19)) := by
  have hrange : (List.range 3).drop 1 = [1, 2] := rfl
  have hargmin : argmin_abs [(90 : ℚ), 100, 110] 100 = some 1 := by
    norm_num [argmin_abs, hrange, argmin_go, abs]
  constructor
  · norm_num [estimate_probability_slope, hargmin, min_def, max_def]
  · norm_num [estimate_probability_slope, hargmin, min_def, max_def]

/-! ### Confidence-score bounds -/

theorem agreement_score_bounds (ps pl : Option StrikeProbability) :
    0 ≤ agreement_score ps pl ∧ agreement_score ps pl ≤ 1 := by
  cases ps with
  | none => simp [agreement_score]
  | some a =>
    cases pl with
    | none => simp [agreement_score]
    | some b =>
      constructor
      · exact (Real.exp_pos _).le
      · refine Real.exp_le_one_iff.mpr ?_
        have h := abs_nonneg ((a.prob_above : ℝ) - (b.prob_above : ℝ))
        nlinarith

theorem liquidity_score_bounds (snapshot : OptionSurfaceSnapshot) (strike mrs : ℚ)
    (hc : ∀ p ∈ snapshot.calls, 0 ≤ p.spread) (hp : ∀ p ∈ snapshot.puts, 0 ≤ p.spread) :
    0 ≤ liquidity_score snapshot strike mrs ∧ liquidity_score snapshot strike mrs ≤ 1 := by
  unfold liquidity_score
  split
  case h_2 => norm_num
  case h_1 call put hcall hput =>
    have hmc : call ∈ snapshot.calls :=
      List.mem_of_find?_eq_some (by simpa [OptionSurfaceSnapshot.get_call] using hcall)
    have hmp : put ∈ snapshot.puts :=
      List.mem_of_find?_eq_some (by simpa [OptionSurfaceSnapshot.get_put] using hput)
    have hcs : 0 ≤ call.spread := hc call hmc
    have hps : 0 ≤ put.spread := hp put hmp
    have hdc : (0 : ℚ) ≤ max call.mid (1 / 1000000) :=
      le_trans (by norm_num) (le_max_right _ _)
    have hdp : (0 : ℚ) ≤ max put.mid (1 / 1000000) :=
      le_trans (by norm_num) (le_max_right _ _)
    have hrel : 0 ≤ max (call.spread / max call.mid (1 / 1000000))
        (put.spread / max put.mid (1 / 1000000)) :=
      le_max_of_le_left (div_nonneg hcs hdc)
    split
    case isTrue => norm_num
    case isFalse hlt =>
      have hltr := not_le.mp hlt
      have hmrs : 0 < mrs := lt_of_le_of_lt hrel hltr
      have h1 : max (call.spread / max call.mid (1 / 1000000))
          (put.spread / max put.mid (1 / 1000000)) / mrs < 1 :=
        (div_lt_one hmrs).mpr hltr
      have h2 : 0 ≤ max (call.spread / max call.mid (1 / 1000000))
          (put.spread / max put.mid (1 / 1000000)) / mrs :=
        div_nonneg hrel hmrs.le
      constructor <;> linarith

theorem monotonicity_score_bounds (snapshot : OptionSurfaceSnapshot) (strike : ℚ) :
    0 ≤ monotonicity_score snapshot strike ∧ monotonicity_score snapshot strike ≤ 1 := by
  unfold monotonicity_score
  split
  case h_1 => norm_num
  case h_2 =>
    split
    case isTrue => norm_num
    case isFalse => norm_num

theorem spacing_score_bounds (snapshot : OptionSurfaceSnapshot) (strike : ℚ) :
    0 ≤ spacing_score snapshot strike ∧ spacing_score snapshot strike ≤ 1 := by
  unfold spacing_score
  split
  case h_1 => norm_num
  case h_2 =>
    rename_i i heq
    split
    case isTrue => norm_num
    case isFalse =>
      constructor
      · exact (Real.exp_pos _).le
      · refine Real.exp_le_one_iff.mpr ?_
        have h0 : (0 : ℚ) ≤ max
            |(snapshot.calls.map (·.strike)).getD i 0 -
              (snapshot.calls.map (·.strike)).getD (i - 1) 0|
            |(snapshot.calls.map (·.strike)).getD (i + 1) 0 -
              (snapshot.calls.map (·.strike)).getD i 0| :=
          le_max_of_le_left (abs_nonneg _)
        have h0r : (0 : ℝ) ≤ ((max
            |(snapshot.calls.map (·.strike)).getD i 0 -
              (snapshot.calls.map (·.strike)).getD (i - 1) 0|
            |(snapshot.calls.map (·.strike)).getD (i + 1) 0 -
              (snapshot.calls.map (·.strike)).getD i 0| : ℚ) : ℝ) := by
          exact_mod_cast h0
        nlinarith

/-- C5 (amended): for every surface snapshot whose points all carry a
non-negative spread, every strike, every pair of optional ratio/slope results
and every `max_relative_spread`, `compute_confidence` returns a confidence in
`[0, 1]` and four sub-scores each in `[0, 1]`.  The non-negative-spread
proviso is forced by the counterexample: a crossed quote (negative spread)
drives the liquidity sub-score above one. -/
theorem compute_confidence_unit_bounds (snapshot : OptionSurfaceSnapshot) (strike : ℚ)
    (ps pl : Option StrikeProbability) (mrs : ℚ)
    (hc : ∀ p ∈ snapshot.calls, 0 ≤ p.spread) (hp : ∀ p ∈ snapshot.puts, 0 ≤ p.spread) :
    (0 ≤ (compute_confidence snapshot strike ps pl mrs).1 ∧
      (compute_confidence snapshot strike ps pl mrs).1 ≤ 1) ∧
    (0 ≤ (compute_confidence snapshot strike ps pl mrs).2.agreement ∧
      (compute_confidence snapshot strike ps pl mrs).2.agreement ≤ 1) ∧
    (0 ≤ (compute_confidence snapshot strike ps pl mrs).2.liquidity ∧
      (compute_confidence snapshot strike ps pl mrs).2.liquidity ≤ 1) ∧
    (0 ≤ (compute_confidence snapshot strike ps pl mrs).2.monotonicity ∧
      (compute_confidence snapshot strike ps pl mrs).2.monotonicity ≤ 1) ∧
    (0 ≤ (compute_confidence snapshot strike ps pl mrs).2.spacing ∧
      (compute_confidence snapshot strike ps pl mrs).2.spacing ≤ 1) := by
  obtain ⟨ha0, ha1⟩ := agreement_score_bounds ps pl
  obtain ⟨hl0, hl1⟩ := liquidity_score_bounds snapshot strike mrs hc hp
  obtain ⟨hm0, hm1⟩ := monotonicity_score_bounds snapshot strike
  obtain ⟨hs0, hs1⟩ := spacing_score_bounds snapshot strike
  have hpair : compute_confidence snapshot strike ps pl mrs =
      (max 0 (min 1 (0.40 * agreement_score ps pl +
        0.30 * (liquidity_score snapshot strike mrs : ℝ) +
        0.20 * (monotonicity_score snapshot strike : ℝ) +
        0.10 * spacing_score snapshot strike)),
       ⟨agreement_score ps pl, (liquidity_score snapshot strike mrs : ℝ),
        (monotonicity_score snapshot strike : ℝ), spacing_score snapshot strike⟩) := rfl
  rw [hpair]
  refine ⟨⟨le_max_left _ _, max_le (by norm_num) (min_le_left _ _)⟩,
    ⟨ha0, ha1⟩, ⟨?_, ?_⟩, ⟨?_, ?_⟩, ⟨hs0, hs1⟩⟩
  · show (0 : ℝ) ≤ ((liquidity_score snapshot strike mrs : ℚ) : ℝ)
    exact_mod_cast hl0
  · show ((liquidity_score snapshot strike mrs : ℚ) : ℝ) ≤ 1
    exact_mod_cast hl1
  · show (0 : ℝ) ≤ ((monotonicity_score snapshot strike : ℚ) : ℝ)
    exact_mod_cast hm0
  · show ((monotonicity_score snapshot strike : ℚ) : ℝ) ≤ 1
    exact_mod_cast hm1

/-- Witness for C5 at a concrete liquid snapshot. -/
theorem compute_confidence_unit_bounds_witness :
    (0 ≤ (compute_confidence ⟨"NVDA", ⟨2026, 1, 17⟩,
        [⟨100, "call", 5, 5, 5, 0⟩], [⟨100, "put", 4, 4, 4, 0⟩]⟩ 100 none none (1 / 2)).1 ∧
      (compute_confidence ⟨"NVDA", ⟨2026, 1, 17⟩,
        [⟨100, "call", 5, 5, 5, 0⟩], [⟨100, "put", 4, 4, 4, 0⟩]⟩ 100 none none (1 / 2)).1 ≤ 1) ∧
    (0 ≤ (compute_confidence ⟨"NVDA", ⟨2026, 1, 17⟩,
        [⟨100, "call", 5, 5, 5, 0⟩], [⟨100, "put", 4, 4, 4, 0⟩]⟩ 100 none none
        (1 / 2)).2.agreement ∧
      (compute_confidence ⟨"NVDA", ⟨2026, 1, 17⟩,
        [⟨100, "call", 5, 5, 5, 0⟩], [⟨100, "put", 4, 4, 4, 0⟩]⟩ 100 none none
        (1 / 2)).2.agreement ≤ 1) ∧
    (0 ≤ (compute_confidence ⟨"NVDA", ⟨2026, 1, 17⟩,
        [⟨100, "call", 5, 5, 5, 0⟩], [⟨100, "put", 4, 4, 4, 0⟩]⟩ 100 none none
        (1 / 2)).2.liquidity ∧
      (compute_confidence ⟨"NVDA", ⟨2026, 1, 17⟩,
        [⟨100, "call", 5, 5, 5, 0⟩], [⟨100, "put", 4, 4, 4, 0⟩]⟩ 100 none none
        (1 / 2)).2.liquidity ≤ 1) ∧
    (0 ≤ (compute_confidence ⟨"NVDA", ⟨2026, 1, 17⟩,
        [⟨100, "call", 5, 5, 5, 0⟩], [⟨100, "put", 4, 4, 4, 0⟩]⟩ 100 none none
        (1 / 2)).2.monotonicity ∧
      (compute_confidence ⟨"NVDA", ⟨2026, 1, 17⟩,
        [⟨100, "call", 5, 5, 5, 0⟩], [⟨100, "put", 4, 4, 4, 0⟩]⟩ 100 none none
        (1 / 2)).2.monotonicity ≤ 1) ∧
    (0 ≤ (compute_confidence ⟨"NVDA", ⟨2026, 1, 17⟩,
        [⟨100, "call", 5, 5, 5, 0⟩], [⟨100, "put", 4, 4, 4, 0⟩]⟩ 100 none none
        (1 / 2)).2.spacing ∧
      (compute_confidence ⟨"NVDA", ⟨2026, 1, 17⟩,
        [⟨100, "call", 5, 5, 5, 0⟩], [⟨100, "put", 4, 4, 4, 0⟩]⟩ 100 none none
        (1 / 2)).2.spacing ≤ 1) :=
  compute_confidence_unit_bounds _ _ _ _ _ (by decide) (by decide)

/-- C5 counterexample: on a snapshot holding a crossed quote (bid 2, ask 1,
spread −1) on both sides of strike 100, the liquidity sub-score evaluates to
3, outside `[0, 1]`. -/
theorem compute_confidence_liquidity_above_one :
    (compute_confidence ⟨"NVDA", ⟨2026, 1, 17⟩,
        [⟨100, "call", 2, 1, 1, -1⟩], [⟨100, "put", 2, 1, 1, -1⟩]⟩ 100 none none
        (1 / 2)).2.liquidity = 3 ∧
    ¬ (compute_confidence ⟨"NVDA", ⟨2026, 1, 17⟩,
        [⟨100, "call", 2, 1, 1, -1⟩], [⟨100, "put", 2, 1, 1, -1⟩]⟩ 100 none none
        (1 / 2)).2.liquidity ≤ 1 := by
  have hL : liquidity_score ⟨"NVDA", ⟨2026, 1, 17⟩,
      [⟨100, "call", 2, 1, 1, -1⟩], [⟨100, "put", 2, 1, 1, -1⟩]⟩ 100 (1 / 2) = 3 := by
    norm_num [liquidity_score, OptionSurfaceSnapshot.get_call,
      OptionSurfaceSnapshot.get_put, List.find?, max_def]
  have hpair : (compute_confidence ⟨"NVDA", ⟨2026, 1, 17⟩,
      [⟨100, "call", 2, 1, 1, -1⟩], [⟨100, "put", 2, 1, 1, -1⟩]⟩ 100 none none
      (1 / 2)).2.liquidity =
      ((liquidity_score ⟨"NVDA", ⟨2026, 1, 17⟩,
        [⟨100, "call", 2, 1, 1, -1⟩], [⟨100, "put", 2, 1, 1, -1⟩]⟩ 100 (1 / 2) : ℚ) : ℝ) :=
    rfl
  rw [hpair, hL]
  norm_num

/-! ### Forward-estimator results -/

theorem parity_candidates_pos (snapshot : OptionSurfaceSnapshot) (discount min_mid : ℚ)
    (ms : Option ℚ) :
    ∀ fw ∈ parity_candidates snapshot discount min_mid ms, 0 < fw.1 ∧ 0 < fw.2 := by
  intro fw hfw
  rw [parity_candidates, List.mem_filterMap] at hfw
  obtain ⟨k, hk1, hk⟩ := hfw
  unfold parity_candidate at hk
  split at hk
  case h_2 => exact absurd hk (by simp)
  case h_1 call put hcall hput =>
    split at hk
    case isTrue => exact absurd hk (by simp)
    case isFalse =>
      split at hk
      case isTrue => exact absurd hk (by simp)
      case isFalse =>
        split at hk
        case isTrue => exact absurd hk (by simp)
        case isFalse =>
          split at hk
          case isTrue => exact absurd hk (by simp)
          case isFalse =>
            split at hk
            case isTrue => exact absurd hk (by simp)
            case isFalse hf =>
              injection hk with hk
              rw [← hk]
              exact ⟨not_le.mp hf,
                one_div_pos.mpr (lt_of_lt_of_le (by norm_num) (le_max_right _ _))⟩

theorem forward_trimmed_mem (candidates : List (ℚ × ℚ)) (tp : ℚ) :
    ∀ fw ∈ forward_trimmed candidates tp, fw ∈ candidates := by
  intro fw hfw
  unfold forward_trimmed at hfw
  split at hfw
  · exact hfw
  · exact (List.mem_filter.mp hfw).1

theorem forward_trimmed_length (candidates : List (ℚ × ℚ)) (tp : ℚ)
    (h3 : 3 ≤ candidates.length) : 3 ≤ (forward_trimmed candidates tp).length := by
  unfold forward_trimmed
  split
  case isTrue => exact h3
  case isFalse h => exact not_lt.mp h

/-- C6: for every snapshot and positive discount, the forward estimator
returns `None` exactly when fewer than three per-strike parity candidates
survive its filters, and every returned estimate uses at least three
candidates and carries a positive forward. -/
theorem estimate_forward_spec (snapshot : OptionSurfaceSnapshot) (discount : ℚ)
    (ms : Option ℚ) (tp mm : ℚ) (hd : 0 < discount) :
    (estimate_forward_put_call_parity snapshot discount ms tp mm = .ok none ↔
      (parity_candidates snapshot discount mm ms).length < 3)
    ∧ (∀ e, estimate_forward_put_call_parity snapshot discount ms tp mm = .ok (some e) →
        3 ≤ e.n_used ∧ 0 < e.forward) := by
  have hnd : ¬ discount ≤ 0 := not_le.mpr hd
  by_cases hemp : common_strikes snapshot = []
  · have hcand : parity_candidates snapshot discount mm ms = [] := by
      unfold parity_candidates
      rw [hemp]
      rfl
    have hest : estimate_forward_put_call_parity snapshot discount ms tp mm = .ok none := by
      unfold estimate_forward_put_call_parity
      rw [if_neg hnd, if_pos hemp]
    refine ⟨?_, ?_⟩
    · rw [hest, hcand]
      simp
    · intro e he
      rw [hest] at he
      exact absurd he (by simp)
  · by_cases hlen : (parity_candidates snapshot discount mm ms).length < 3
    · have hest : estimate_forward_put_call_parity snapshot discount ms tp mm = .ok none := by
        unfold estimate_forward_put_call_parity
        rw [if_neg hnd, if_neg hemp, if_pos hlen]
      refine ⟨?_, ?_⟩
      · rw [hest]
        simp [hlen]
      · intro e he
        rw [hest] at he
        exact absurd he (by simp)
    · have hpos := parity_candidates_pos snapshot discount mm ms
      have hlen3 : 3 ≤ (parity_candidates snapshot discount mm ms).length := not_lt.mp hlen
      have htl := forward_trimmed_length (parity_candidates snapshot discount mm ms) tp hlen3
      have hmem := forward_trimmed_mem (parity_candidates snapshot discount mm ms) tp
      have hne : forward_trimmed (parity_candidates snapshot discount mm ms) tp ≠ [] := by
        intro h0
        rw [h0] at htl
        simp at htl
      have hw : 0 < ((forward_trimmed (parity_candidates snapshot discount mm ms) tp).map
          Prod.snd).sum := by
        refine List.sum_pos _ ?_ ?_
        · intro x hx
          obtain ⟨fw, hfw, rfl⟩ := List.mem_map.mp hx
          exact (hpos fw (hmem fw hfw)).2
        · simpa using hne
      have hnum : 0 < ((forward_trimmed (parity_candidates snapshot discount mm ms) tp).map
          (fun fw => fw.1 * fw.2)).sum := by
        refine List.sum_pos _ ?_ ?_
        · intro x hx
          obtain ⟨fw, hfw, rfl⟩ := List.mem_map.mp hx
          exact mul_pos (hpos fw (hmem fw hfw)).1 (hpos fw (hmem fw hfw)).2
        · simpa using hne
      have hwn : ¬ (((forward_trimmed (parity_candidates snapshot discount mm ms) tp).map
          Prod.snd).sum ≤ 0) := not_le.mpr hw
      refine ⟨?_, ?_⟩
      · constructor
        · intro h0
          unfold estimate_forward_put_call_parity at h0
          rw [if_neg hnd, if_neg hemp, if_neg hlen, if_neg hwn] at h0
          exact absurd h0 (by simp)
        · intro h3
          exact absurd h3 hlen
      · intro e he
        unfold estimate_forward_put_call_parity at he
        rw [if_neg hnd, if_neg hemp, if_neg hlen, if_neg hwn] at he
        injection he with he
        injection he with he
        rw [← he]
        exact ⟨htl, div_pos hnum hw⟩

/-- Witness for C6 on the empty snapshot at discount 1. -/
theorem estimate_forward_spec_witness :
    estimate_forward_put_call_parity ⟨"NVDA", ⟨2026, 1, 17⟩, [], []⟩ 1 none (1 / 50)
      (1 / 1000000) = .ok none :=
  (estimate_forward_spec ⟨"NVDA", ⟨2026, 1, 17⟩, [], []⟩ 1 none (1 / 50) (1 / 1000000)
    (by norm_num)).1.mpr
    (by simp [parity_candidates, common_strikes, OptionSurfaceSnapshot.call_strikes,
      OptionSurfaceSnapshot.put_strikes])

/-- C10: the forward estimator raises (rather than returning an absent
result) exactly when its discount argument is non-positive; every other
failure is reported as `None`.  Non-finite discounts, which take the same
raising branch in the source, have no representation in the exact-rational
model. -/
theorem estimate_forward_raises_iff (snapshot : OptionSurfaceSnapshot) (discount : ℚ)
    (ms : Option ℚ) (tp mm : ℚ) :
    estimate_forward_put_call_parity snapshot discount ms tp mm = .error () ↔
      discount ≤ 0 := by
  unfold estimate_forward_put_call_parity
  by_cases hd : discount ≤ 0
  · rw [if_pos hd]
    simp [hd]
  · rw [if_neg hd]
    constructor
    · intro h
      split at h
      · exact absurd h (by simp)
      · split at h
        · exact absurd h (by simp)
        · split at h
          · exact absurd h (by simp)
          · exact absurd h (by simp)
    · intro h
      exact absurd h hd

/-- Witness for C10: a non-positive discount raises on the empty snapshot. -/
theorem estimate_forward_raises_iff_witness :
    estimate_forward_put_call_parity ⟨"NVDA", ⟨2026, 1, 17⟩, [], []⟩ 0 none (1 / 50)
      (1 / 1000000) = .error () :=
  (estimate_forward_raises_iff ⟨"NVDA", ⟨2026, 1, 17⟩, [], []⟩ 0 none (1 / 50)
    (1 / 1000000)).mpr (by norm_num)

/-! ### Probability models return values in the unit interval -/

theorem estimate_probability_simple_bounds (snapshot : OptionSurfaceSnapshot) (K : ℚ)
    (ms : Option ℚ) (r : StrikeProbability)
    (h : estimate_probability_simple snapshot K ms = some r) :
    0 ≤ r.prob_above ∧ r.prob_above ≤ 1 := by
  simp only [estimate_probability_simple] at h
  split at h
  case h_2 => exact absurd h (by simp)
  case h_1 =>
    split at h
    case isTrue => exact absurd h (by simp)
    case isFalse =>
      split at h
      case isTrue => exact absurd h (by simp)
      case isFalse =>
        split at h
        case isTrue => exact absurd h (by simp)
        case isFalse =>
          injection h with h
          rw [← h]
          exact ⟨le_max_left _ _, max_le (by norm_num) (min_le_left _ _)⟩

theorem estimate_probability_slope_bounds (snapshot : OptionSurfaceSnapshot) (K : ℚ)
    (w : ℕ) (dq : ℚ) (ms : Option ℚ) (r : StrikeProbability)
    (h : estimate_probability_slope snapshot K w dq ms = some r) :
    0 ≤ r.prob_above ∧ r.prob_above ≤ 1 := by
  simp only [estimate_probability_slope] at h
  split at h
  case isTrue => exact absurd h (by simp)
  case isFalse =>
    split at h
    case h_1 => exact absurd h (by simp)
    case h_2 =>
      split at h
      case isTrue => exact absurd h (by simp)
      case isFalse =>
        split at h
        case isTrue => exact absurd h (by simp)
        case isFalse =>
          split at h
          case isTrue => exact absurd h (by simp)
          case isFalse =>
            injection h with h
            rw [← h]
            exact ⟨le_max_left _ _, max_le (by norm_num) (min_le_left _ _)⟩

/-- C7: each of the four probability models returns a value in `[0, 1]`
whenever it returns a value at all.  For the ratio and slope wrappers the
absent case (`nan` in the source) is the `none` branch; for the SVI and
spline models the positivity hypotheses on strike, forward and expiry time
delimit exactly the queries on which the source's `log`, `sqrt` and division
evaluate without raising, and the returned probability is clamped. -/
theorem prob_above_unit_interval (snapshot : OptionSurfaceSnapshot) (K : ℚ)
    (msp : Option ℚ) (w : ℕ) (dq : ℚ) (svi : SVIModel) (spl : SplineModel) (Kr : ℝ)
    (hsviT : 0 < svi.T) (hsviF : 0 < svi.fit.forward) (hKr : 0 < Kr)
    (hsplT : 0 < spl.T) (hsplF : 0 < spl.fit.forward) :
    (∀ p, (SimpleModel.mk snapshot msp).prob_above K = some p → 0 ≤ p ∧ p ≤ 1)
    ∧ (∀ p, (SlopeModel.mk snapshot w dq msp).prob_above K = some p → 0 ≤ p ∧ p ≤ 1)
    ∧ (0 ≤ svi.prob_above Kr ∧ svi.prob_above Kr ≤ 1)
    ∧ (0 ≤ spl.prob_above Kr ∧ spl.prob_above Kr ≤ 1) := by
  refine ⟨?_, ?_, ?_, ?_⟩
  · intro p hp
    simp only [SimpleModel.prob_above, Option.map_eq_some'] at hp
    obtain ⟨r, hr, rfl⟩ := hp
    exact estimate_probability_simple_bounds snapshot K msp r hr
  · intro p hp
    simp only [SlopeModel.prob_above, Option.map_eq_some'] at hp
    obtain ⟨r, hr, rfl⟩ := hp
    exact estimate_probability_slope_bounds snapshot K w dq msp r hr
  · unfold SVIModel.prob_above
    exact ⟨le_max_left _ _, max_le (by norm_num) (min_le_left _ _)⟩
  · unfold SplineModel.prob_above
    exact ⟨le_max_left _ _, max_le (by norm_num) (min_le_left _ _)⟩

/-- Witness for C7 at concrete models and query points. -/
theorem prob_above_unit_interval_witness :
    (∀ p, (SimpleModel.mk ⟨"NVDA", ⟨2026, 1, 17⟩,
        [⟨100, "call", 5, 5, 5, 0⟩], [⟨100, "put", 4, 4, 4, 0⟩]⟩ none).prob_above 100 =
          some p → 0 ≤ p ∧ p ≤ 1)
    ∧ (∀ p, (SlopeModel.mk ⟨"NVDA", ⟨2026, 1, 17⟩,
        [⟨100, "call", 5, 5, 5, 0⟩], [⟨100, "put", 4, 4, 4, 0⟩]⟩ 1 1 none).prob_above 100 =
          some p → 0 ≤ p ∧ p ≤ 1)
    ∧ (0 ≤ SVIModel.prob_above ⟨⟨⟨1 / 25, 1 / 10, 0, 0, 1 / 10⟩, 100, 8⟩, 1, 1⟩ 100 ∧
        SVIModel.prob_above ⟨⟨⟨1 / 25, 1 / 10, 0, 0, 1 / 10⟩, 100, 8⟩, 1, 1⟩ 100 ≤ 1)
    ∧ (0 ≤ SplineModel.prob_above ⟨⟨100, 8⟩, fun _ => 1 / 25, 1, 1, -1, 1⟩ 100 ∧
        SplineModel.prob_above ⟨⟨100, 8⟩, fun _ => 1 / 25, 1, 1, -1, 1⟩ 100 ≤ 1) :=
  prob_above_unit_interval ⟨"NVDA", ⟨2026, 1, 17⟩,
      [⟨100, "call", 5, 5, 5, 0⟩], [⟨100, "put", 4, 4, 4, 0⟩]⟩ 100 none 1 1
    ⟨⟨⟨1 / 25, 1 / 10, 0, 0, 1 / 10⟩, 100, 8⟩, 1, 1⟩
    ⟨⟨100, 8⟩, fun _ => 1 / 25, 1, 1, -1, 1⟩ 100
    (by norm_num) (by norm_num) (by norm_num) (by norm_num) (by norm_num)

/-! ### Implied-volatility inverter: tolerance or exhausted budget -/

theorem bisect_loop_spec (f : ℝ → ℝ) (price tol : ℝ) (M : ℕ) :
    ∀ (fuel it : ℕ) (lo hi mid pm : ℝ), fuel + it = M →
      |f (bisect_loop f price tol fuel it lo hi mid pm).sigma - price| ≤ tol ∨
        (bisect_loop f price tol fuel it lo hi mid pm).iterations = M := by
  intro fuel
  induction fuel with
  | zero =>
    intro it lo hi mid pm h
    right
    show it = M
    omega
  | succ n ih =>
    intro it lo hi mid pm h
    simp only [bisect_loop]
    split
    case isTrue htol => exact Or.inl htol
    case isFalse =>
      split
      case isTrue => exact ih (it + 1) _ _ _ _ (by omega)
      case isFalse => exact ih (it + 1) _ _ _ _ (by omega)

/-- C2 (amended): whenever the inverter (at its source defaults
`vol_low = 10⁻⁶`, `vol_high = 5`, `tol = 10⁻⁸`, `max_iter = 100`) returns a
result, either the returned sigma reprices the target within the `10⁻⁸`
tolerance, or `iterations = max_iter = 100`, or the result came from the
near-intrinsic branch — `iterations = 0`, `sigma = vol_low = 10⁻⁶` and
`price_fit` equal to the lower no-arbitrage bound within `10⁻¹²` of the
price.  In the last case `bs_price_forward(sigma)` need not be within `10⁻⁸`
of the price (see the counterexample). -/
theorem implied_vol_bisect_tol (ot : OptionType) (price F K T discount : ℝ)
    (r : ImpliedVolResult)
    (h : implied_vol_bisect ot price F K T discount 1e-6 5 1e-8 100 = some r) :
    |bs_price_forward ot F K T r.sigma discount - price| ≤ 1e-8 ∨ r.iterations = 100 ∨
      (r.iterations = 0 ∧ r.sigma = 1e-6 ∧ |r.price_fit - price| ≤ 1e-12) := by
  simp only [implied_vol_bisect] at h
  split at h
  case isTrue => exact absurd h (by simp)
  case isFalse =>
    split at h
    case isTrue => exact absurd h (by simp)
    case isFalse =>
      split at h
      case isTrue hnear =>
        injection h with h
        rw [← h]
        right
        right
        refine ⟨rfl, rfl, ?_⟩
        rw [abs_sub_comm]
        exact hnear
      case isFalse =>
        split at h
        · split at h
          · exact absurd h (by simp)
          · injection h with h
            rw [← h]
            exact (bisect_loop_spec (fun s => bs_price_forward ot F K T s discount) price 1e-8
              100 100 0 1e-6 _ 0 0 rfl).imp_right Or.inl
        · split at h
          · exact absurd h (by simp)
          · injection h with h
            rw [← h]
            exact (bisect_loop_spec (fun s => bs_price_forward ot F K T s discount) price 1e-8
              100 100 0 1e-6 _ 0 0 rfl).imp_right Or.inl

/-! ### Error-function estimates for the near-intrinsic counterexample -/

theorem erf_nonpos_of_nonpos {x : ℝ} (hx : x ≤ 0) : erf x ≤ 0 := by
  unfold erf
  have hI : ∫ t in (0:ℝ)..x, Real.exp (-(t ^ 2)) ≤ 0 := by
    rw [intervalIntegral.integral_symm x 0]
    have h0 : 0 ≤ ∫ t in x..(0:ℝ), Real.exp (-(t ^ 2)) :=
      intervalIntegral.integral_nonneg hx (fun u _ => (Real.exp_pos _).le)
    linarith
  have hc : 0 ≤ 2 / Real.sqrt Real.pi := by positivity
  calc 2 / Real.sqrt Real.pi * ∫ t in (0:ℝ)..x, Real.exp (-(t ^ 2))
      ≤ 2 / Real.sqrt Real.pi * 0 := mul_le_mul_of_nonneg_left hI hc
    _ = 0 := by ring

theorem erf_ge_half_self {y : ℝ} (h0 : 0 ≤ y) (h1 : y ≤ 1 / 2) : y / 2 ≤ erf y := by
  have hcont : Continuous fun t : ℝ => Real.exp (-(t ^ 2)) := by continuity
  have hint : ∀ t ∈ Set.Icc (0:ℝ) y, Real.exp (-(1 / 4 : ℝ)) ≤ Real.exp (-(t ^ 2)) := by
    intro t ht
    apply Real.exp_le_exp.mpr
    have ht2 : t ^ 2 ≤ (1 / 2 : ℝ) ^ 2 :=
      sq_le_sq' (by linarith [ht.1]) (le_trans ht.2 h1)
    nlinarith
  have hconst : ∫ t in (0:ℝ)..y, Real.exp (-(1 / 4 : ℝ)) = y * Real.exp (-(1 / 4 : ℝ)) := by
    rw [intervalIntegral.integral_const]
    simp [smul_eq_mul]
  have hI : y * Real.exp (-(1 / 4 : ℝ)) ≤ ∫ t in (0:ℝ)..y, Real.exp (-(t ^ 2)) := by
    calc y * Real.exp (-(1 / 4 : ℝ)) = ∫ t in (0:ℝ)..y, Real.exp (-(1 / 4 : ℝ)) := hconst.symm
      _ ≤ ∫ t in (0:ℝ)..y, Real.exp (-(t ^ 2)) :=
          intervalIntegral.integral_mono_on h0
            (continuous_const.intervalIntegrable 0 y) (hcont.intervalIntegrable 0 y) hint
  have hexp : (3 / 4 : ℝ) ≤ Real.exp (-(1 / 4 : ℝ)) := by
    have := Real.add_one_le_exp (-(1 / 4 : ℝ))
    linarith
  have hI0 : 0 ≤ ∫ t in (0:ℝ)..y, Real.exp (-(t ^ 2)) := by nlinarith
  have hpi : Real.sqrt Real.pi ≤ 2 := by
    have h4 : (2 : ℝ) = Real.sqrt 4 := by
      rw [show (4 : ℝ) = 2 ^ 2 by norm_num, Real.sqrt_sq (by norm_num)]
    rw [h4]
    exact Real.sqrt_le_sqrt Real.pi_le_four
  have hfrac : (1 : ℝ) ≤ 2 / Real.sqrt Real.pi := by
    rw [le_div_iff (Real.sqrt_pos.mpr Real.pi_pos)]
    linarith
  unfold erf
  calc y / 2 ≤ y * Real.exp (-(1 / 4 : ℝ)) := by nlinarith
    _ ≤ ∫ t in (0:ℝ)..y, Real.exp (-(t ^ 2)) := hI
    _ ≤ 2 / Real.sqrt Real.pi * ∫ t in (0:ℝ)..y, Real.exp (-(t ^ 2)) :=
        le_mul_of_one_le_left hI0 hfrac

theorem bs_price_forward_atm_lower :
    (6 / 1000000 : ℝ) ≤ bs_price_forward .call 100 100 1 1e-6 1 := by
  simp only [bs_price_forward, norm_cdf]
  rw [if_neg (by norm_num), if_neg (by norm_num [Real.sqrt_one])]
  rw [show ((100:ℝ)/100) = 1 from by norm_num, Real.log_one, Real.sqrt_one]
  norm_num
  have hsq := Real.sq_sqrt (show (0:ℝ) ≤ 2 by norm_num)
  have hsn := Real.sqrt_nonneg 2
  have h22 : Real.sqrt 2 ≤ 2 := by nlinarith
  have h12 : 1 ≤ Real.sqrt 2 := by nlinarith
  have hs0 : 0 < Real.sqrt 2 := by positivity
  rw [neg_div]
  have h0y : 0 ≤ (1 / 2000000 : ℝ) / Real.sqrt 2 := by positivity
  have hyle : (1 / 2000000 : ℝ) / Real.sqrt 2 ≤ 1 / 2 := by
    have hle : (1 / 2000000 : ℝ) / Real.sqrt 2 ≤ 1 / 2000000 :=
      div_le_self (by norm_num) h12
    linarith
  have hlb : (1 / 4000000 : ℝ) ≤ (1 / 2000000 : ℝ) / Real.sqrt 2 := by
    rw [le_div_iff hs0]
    nlinarith
  have herf1 : ((1 / 2000000 : ℝ) / Real.sqrt 2) / 2 ≤ erf ((1 / 2000000 : ℝ) / Real.sqrt 2) :=
    erf_ge_half_self h0y hyle
  have herf2 : erf (-((1 / 2000000 : ℝ) / Real.sqrt 2)) ≤ 0 :=
    erf_nonpos_of_nonpos (by linarith)
  linarith

theorem implied_vol_near_intrinsic_eval :
    implied_vol_bisect .call 1e-13 100 100 1 1 1e-6 5 1e-8 100 = some ⟨1e-6, 0, 0⟩ := by
  simp only [implied_vol_bisect, no_arb_bounds_forward]
  rw [if_neg (by norm_num), if_neg (by norm_num), if_pos (by rw [abs_of_nonneg] <;> norm_num)]
  norm_num

/-- C2 counterexample: at `(call, price = 10⁻¹³, F = K = 100, T = 1, D = 1)`
the inverter takes the near-intrinsic branch and returns
`(sigma = 10⁻⁶, iterations = 0, price_fit = 0)`, yet the Black-Scholes price
at `sigma = 10⁻⁶` is at least `6·10⁻⁶` — more than `10⁻⁸` away from the
target price — and `iterations ≠ max_iter`. -/
theorem implied_vol_near_intrinsic_cex :
    implied_vol_bisect .call 1e-13 100 100 1 1 1e-6 5 1e-8 100 = some ⟨1e-6, 0, 0⟩ ∧
    ¬ (|bs_price_forward .call 100 100 1 1e-6 1 - 1e-13| ≤ 1e-8 ∨ (0 : ℕ) = 100) := by
  refine ⟨implied_vol_near_intrinsic_eval, ?_⟩
  rintro (habs | h100)
  · have hlow := bs_price_forward_atm_lower
    have h2 := (abs_le.mp habs).2
    norm_num at h2 hlow
    linarith
  · exact absurd h100 (by norm_num)

/-- Witness for C2: the amended disjunction, instantiated at the
near-intrinsic input (where its third disjunct holds). -/
theorem implied_vol_bisect_tol_witness :
    |bs_price_forward .call 100 100 1
        (ImpliedVolResult.mk 1e-6 0 0).sigma 1 - 1e-13| ≤ 1e-8 ∨
      (ImpliedVolResult.mk 1e-6 0 0).iterations = 100 ∨
      ((ImpliedVolResult.mk 1e-6 0 0).iterations = 0 ∧
        (ImpliedVolResult.mk 1e-6 0 0).sigma = 1e-6 ∧
        |(ImpliedVolResult.mk 1e-6 0 0).price_fit - 1e-13| ≤ 1e-12) :=
  implied_vol_bisect_tol .call 1e-13 100 100 1 1 ⟨1e-6, 0, 0⟩ implied_vol_near_intrinsic_eval
